import Mathlib

set_option autoImplicit false

/-
  Verification of `scripts/check_description_files.py`, a validator for Slicer
  extension description (`.s4ext`) files.  The script is embedded shallowly:
  file text is a list of lines, each line a list of characters; the Python
  dict of metadata is an association list in insertion order with unique keys;
  a check receives the shared metadata dict and returns its outcome together
  with the dict as left after the call, so that absence of mutation is a
  provable statement rather than a modelling artifact.
-/

deriving instance DecidableEq for Except

namespace CheckDescriptionFiles

/-- Characters of one line of text (Python `str`). -/
abbrev Str := List Char

/-- Coerce a Lean string literal to the character-list representation. -/
def str (s : String) : Str := s.data

/-- The ASCII apostrophe, used by Python `repr` for strings. -/
def q : Char := Char.ofNat 39

/-- Python `str.strip()` whitespace: space, tab, newline, carriage return,
vertical tab, form feed. -/
def isPySpace (c : Char) : Bool :=
  c = ' ' || c = '\t' || c = '\n' || c = '\r' || c = Char.ofNat 11 || c = Char.ofNat 12

/-- Python `s.strip()`: drop leading and trailing whitespace. -/
def pyStrip (s : Str) : Str :=
  ((s.dropWhile isPySpace).reverse.dropWhile isPySpace).reverse

/-- Python `s.split(sep, 1)` for a single-character separator: the part before
the first occurrence of `sep`, and (when `sep` occurs) the part after it. -/
def splitFirstChar (sep : Char) : Str → Str × Option Str
  | [] => ([], none)
  | c :: cs =>
    if c = sep then ([], some cs)
    else
      let r := splitFirstChar sep cs
      (c :: r.1, r.2)

/-- Python `s.split(sep)` for a single-character separator (on the empty
string it yields `[""]`, like Python). -/
def splitAllChar (sep : Char) (s : Str) : List Str :=
  go s (s.length + 1)
where
  go : Str → Nat → List Str
    | s, 0 => [s]
    | s, fuel + 1 =>
      match splitFirstChar sep s with
      | (a, none) => [a]
      | (a, some b) => a :: go b fuel

/-- A Python dict from metadata keys to values (`None` for a bare key), kept
as an association list in insertion order with unique keys. -/
abbrev Metadata := List (Str × Option Str)

/-- Python `k in d.keys()`. -/
def dictContains (md : Metadata) (k : Str) : Bool :=
  match md with
  | [] => false
  | (k1, _) :: rest => k1 = k || dictContains rest k

/-- Python `d[k]`, as an `Option` (a `none` result corresponds to `KeyError`). -/
def dictFind (md : Metadata) (k : Str) : Option (Option Str) :=
  match md with
  | [] => none
  | (k1, v) :: rest => if k1 = k then some v else dictFind rest k

/-- Python `d[k] = v`: replace the value in place when the key is present,
otherwise append the new entry. -/
def dictSet (md : Metadata) (k : Str) (v : Option Str) : Metadata :=
  match md with
  | [] => [(k, v)]
  | (k1, v1) :: rest => if k1 = k then (k, v) :: rest else (k1, v1) :: dictSet rest k v

/-- One loop iteration of `parse_s4ext`: `none` when the line is skipped
(empty after stripping, or starting with `#`), otherwise the `(key, value)`
pair stored into the metadata dict.  The line is split at its first space;
both fields are stripped; with no second field the value is Python `None`. -/
def parseLine (line : Str) : Option (Str × Option Str) :=
  if pyStrip line = [] || List.isPrefixOf (str "#") line then none
  else
    let fields := splitFirstChar ' ' line
    some (pyStrip fields.1, fields.2.map pyStrip)

/-- The dict-building loop of `parse_s4ext`, started from an arbitrary dict. -/
def parseFrom (md : Metadata) (lines : List Str) : Metadata :=
  lines.foldl (fun md line =>
    match parseLine line with
    | none => md
    | some (k, v) => dictSet md k v) md

/-- `parse_s4ext`, acting on the lines of the file (reading the file itself is
modelled in `main`; an unreadable file aborts before this function runs). -/
def parse_s4ext (lines : List Str) : Metadata :=
  parseFrom [] lines

/-- Python `repr` of a string without quote characters: wrap in apostrophes. -/
def pyReprStr (s : Str) : Str := q :: s ++ [q]

/-- Join a list of strings with `", "` (the element join of Python list `repr`). -/
def commaJoin : List Str → Str
  | [] => []
  | [s] => s
  | s :: rest => s ++ str ", " ++ commaJoin rest

/-- Python `repr`/`"%s"` formatting of a list of plain strings,
for example `['git', 'https', 'svn']`. -/
def pyReprStrList (l : List Str) : Str :=
  '[' :: commaJoin (l.map pyReprStr) ++ [']']

/-! ### `urllib.parse.urlsplit` and `os.path` helpers

`urlsplit` is modelled from CPython `urllib/parse.py` (3.11+): strip leading
C0-control-or-space characters, remove tab/CR/LF everywhere, extract the
scheme when the text before the first `:` starts with an ASCII letter and
consists of scheme characters, split off the netloc after `//`, then split
the fragment at the first `#` and the query at the first `?`.  The
`ValueError` CPython raises for unbalanced `[`/`]` in the netloc is outside
this model; theorems that quantify over URLs therefore assume bracket-free
input. -/

/-- Characters allowed in a URL scheme (CPython `scheme_chars`). -/
def schemeChar (c : Char) : Bool :=
  c.isAlpha || c.isDigit || c = '+' || c = '-' || c = '.'

/-- WHATWG C0-control-or-space class stripped from the front of a URL. -/
def isC0OrSpace (c : Char) : Bool := c.toNat ≤ 32

/-- The tab/CR/LF removal CPython applies to the whole URL. -/
def removeUnsafe (s : Str) : Str :=
  s.filter (fun c => !(c = '\t' || c = '\r' || c = '\n'))

/-- Result of `urllib.parse.urlsplit`. -/
structure SplitResult where
  scheme : Str
  netloc : Str
  path : Str
  query : Str
  fragment : Str
deriving DecidableEq

/-- `urllib.parse.urlsplit` (see the section comment for the modelled scope). -/
def urlsplit (url0 : Str) : SplitResult :=
  let url1 := removeUnsafe (url0.dropWhile isC0OrSpace)
  let p :=
    match List.findIdx? (fun c => c = ':') url1 with
    | some i =>
      let before := url1.take i
      if 0 < i && (before.headD ' ').isAlpha && before.all schemeChar then
        (before.map Char.toLower, url1.drop (i + 1))
      else ([], url1)
    | none => ([], url1)
  let scheme := p.1
  let rest := p.2
  let n :=
    if List.isPrefixOf (str "//") rest then
      ((rest.drop 2).takeWhile (fun c => !(c = '/' || c = '?' || c = '#')),
       (rest.drop 2).dropWhile (fun c => !(c = '/' || c = '?' || c = '#')))
    else ([], rest)
  let netloc := n.1
  let f :=
    match splitFirstChar '#' n.2 with
    | (a, some b) => (a, b)
    | (a, none) => (a, [])
  let g :=
    match splitFirstChar '?' f.1 with
    | (a, some b) => (a, b)
    | (a, none) => (a, [])
  ⟨scheme, netloc, g.1, g.2, f.2⟩

/-- `os.path.splitext(s)[0]` for a name containing no path separator: drop the
suffix from the last dot on, unless every character before that dot is itself
a dot (so `.git` and `..git` keep their name unchanged). -/
def splitextRoot (s : Str) : Str :=
  let afterRev := s.reverse.takeWhile (fun c => !(c = '.'))
  if afterRev.length = s.length then s
  else
    let root := s.take (s.length - afterRev.length - 1)
    if root.any (fun c => !(c = '.')) then root else s

/-- `os.path.basename` (posix): the part after the last `/`. -/
def basename (p : Str) : Str :=
  (splitAllChar '/' p).getLastD []

/-! ### Checks -/

/-- The exception type raised by failing checks (`ExtensionCheckError` in the
script); `str(exc)` returns `details`. -/
structure ExtensionCheckError where
  extension_name : Str
  check_name : Str
  details : Str
deriving DecidableEq

/-- An exception escaping a check invocation: either the `ExtensionCheckError`
the checks raise on purpose (caught by the runner), or an uncaught Python
error such as the `TypeError` from `"://" in None` or `urlsplit(None)` when a
required key is present but holds no value. -/
inductive PyErr where
  | checkError (e : ExtensionCheckError)
  | uncaughtError
deriving DecidableEq

/-- A check receives the extension name and the (shared, in Python mutable)
metadata dict, and returns its outcome together with the dict as left after
the call. -/
abbrev Check := Str → Metadata → Except PyErr Unit × Metadata

/-- The `require_metadata_key` decorator: run the wrapped check only when the
required key is present, else raise `ExtensionCheckError` with check name
`require_metadata_key` and details `"<key> key is missing"`. -/
def require_metadata_key (metadata_key : Str) (fn : Check) : Check :=
  fun extension_name metadata =>
    if dictContains metadata metadata_key then fn extension_name metadata
    else
      (.error (.checkError ⟨extension_name, str "require_metadata_key",
        metadata_key ++ str " key is missing"⟩), metadata)

/-- Python `pat in s` for strings: `pat` occurs as a contiguous substring. -/
def isSubstring (pat : Str) : Str → Bool
  | [] => pat.isEmpty
  | c :: rest => List.isPrefixOf pat (c :: rest) || isSubstring pat rest

/-- The `supported_schemes` list of `check_scmurl_syntax`. -/
def supported_schemes : List Str := [str "git", str "https", str "svn"]

/-- Body of `check_scmurl_syntax` (before its decorator): fail when the value
has no `"://"` substring, or when its `urlsplit` scheme is unsupported.  A
missing key would be a `KeyError` and a `None` value a `TypeError`, both
uncaught. -/
def check_scmurl_syntax_body : Check := fun extension_name metadata =>
  match dictFind metadata (str "scmurl") with
  | some (some scmurl) =>
    if !(isSubstring (str "://") scmurl) then
      (.error (.checkError ⟨extension_name, str "check_scmurl_syntax",
        str "scmurl do not match scheme://host/path"⟩), metadata)
    else
      let scheme := (urlsplit scmurl).scheme
      if !(supported_schemes.contains scheme) then
        (.error (.checkError ⟨extension_name, str "check_scmurl_syntax",
          str "scmurl scheme is " ++ pyReprStr scheme ++
          str " but it should by any of " ++ pyReprStrList supported_schemes⟩), metadata)
      else (.ok (), metadata)
  | some none => (.error .uncaughtError, metadata)
  | none => (.error .uncaughtError, metadata)

/-- `check_scmurl_syntax` as decorated in the script. -/
def check_scmurl_syntax : Check :=
  require_metadata_key (str "scmurl") check_scmurl_syntax_body

/-- Body of `check_scm_notlocal` (before its decorator): fail exactly when the
`scm` value equals `"local"` (a `None` value compares unequal, so it passes). -/
def check_scm_notlocal_body : Check := fun extension_name metadata =>
  match dictFind metadata (str "scm") with
  | some v =>
    if v = some (str "local") then
      (.error (.checkError ⟨extension_name, str "check_scm_notlocal",
        str "scm cannot be local"⟩), metadata)
    else (.ok (), metadata)
  | none => (.error .uncaughtError, metadata)

/-- `check_scm_notlocal` as decorated in the script. -/
def check_scm_notlocal : Check :=
  require_metadata_key (str "scm") check_scm_notlocal_body

/-- The repository name computed by `check_git_repository_name`: last `/`
segment of the `urlsplit` path, extension suffix stripped. -/
def repoName (scmurl : Str) : Str :=
  splitextRoot ((splitAllChar '/' (urlsplit scmurl).path).getLastD [])

/-- The four suggested prefix variations of `check_git_repository_name`. -/
def variations (repo_name : Str) : List Str :=
  [str "Slicer-", str "Slicer_", str "SlicerExtension-", str "SlicerExtension_"].map
    (fun p => p ++ repo_name)

/-- The failure details of `check_git_repository_name`: the `textwrap.dedent`
of the `%`-formatted triple-quoted template, with the variations list shown
via Python list `repr`. -/
def gitRepoNameDetail (repo_name : Str) : Str :=
  str "\nextension repository name is " ++ pyReprStr repo_name ++
  str ". Please, consider changing it to " ++ (q :: (str "Slicer" ++ repo_name) ++ [q]) ++
  str " or any of\nthese variations " ++ pyReprStrList (variations repo_name) ++ str ".\n"

/-- Body of `check_git_repository_name` (before its decorators): return
cleanly when `scm` is not `git`; otherwise fail when the repository name does
not start with `Slicer`.  `urlsplit` applied to a `None` value is an uncaught
error. -/
def check_git_repository_name_body : Check := fun extension_name metadata =>
  match dictFind metadata (str "scm") with
  | none => (.error .uncaughtError, metadata)
  | some scm =>
    if scm ≠ some (str "git") then (.ok (), metadata)
    else
      match dictFind metadata (str "scmurl") with
      | none => (.error .uncaughtError, metadata)
      | some none => (.error .uncaughtError, metadata)
      | some (some scmurl) =>
        let repo_name := repoName scmurl
        if !(List.isPrefixOf (str "Slicer") repo_name) then
          (.error (.checkError ⟨extension_name, str "check_git_repository_name",
            gitRepoNameDetail repo_name⟩), metadata)
        else (.ok (), metadata)

/-- `check_git_repository_name` as decorated in the script: the `scmurl` guard
is written first, hence outermost, hence evaluated first. -/
def check_git_repository_name : Check :=
  require_metadata_key (str "scmurl")
    (require_metadata_key (str "scm") check_git_repository_name_body)

/-! ### Check runner and `main` -/

/-- An exception aborting the whole run: an I/O error from opening or reading
a description file (raised inside `parse_s4ext`, caught nowhere), or an
uncaught Python error escaping a check (not an `ExtensionCheckError`, so the
runner's `except` clause does not catch it). -/
inductive RunAbort where
  | ioError (path : Str)
  | uncaughtError
deriving DecidableEq

/-- The per-file check loop of `main`: run every check in order, catch each
`ExtensionCheckError` and record its `str()` (the details) in the failures
list, let anything else propagate. -/
def runChecks : List Check → Str → Metadata → List Str →
    Except RunAbort (List Str × Metadata)
  | [], _, md, failures => .ok (failures, md)
  | c :: cs, extension_name, md, failures =>
    match c extension_name md with
    | (.ok _, md1) => runChecks cs extension_name md1 failures
    | (.error (.checkError e), md1) => runChecks cs extension_name md1 (failures ++ [e.details])
    | (.error .uncaughtError, _) => .error .uncaughtError

/-- The report for one file with a non-empty failure list: the extension name
printed in the header, and the failure texts in accumulation order with
duplicates kept (printing dedups them, counting does not). -/
structure FileReport where
  extension_name : Str
  failures : List Str
deriving DecidableEq

/-- The check list `main` builds: `check_git_repository_name` first when its
flag is set, then always `check_scmurl_syntax` and `check_scm_notlocal`. -/
def checksFor (check_git_repository_name_flag : Bool) : List Check :=
  (if check_git_repository_name_flag then [check_git_repository_name] else []) ++
  [ check_scmurl_syntax, check_scm_notlocal]

/-- The file loop of `main`.  The file system is a partial map from paths to
file lines; a path outside its domain is an unreadable file, whose I/O error
propagates (it is raised by `open` inside `parse_s4ext`, which `main` does
not guard).  For each readable file: parse, run the checks, and when the
failure list is non-empty add its length to the total and emit a report. -/
def processFiles (fs : Str → Option (List Str)) (checks : List Check) :
    List Str → List FileReport → Nat → Except RunAbort (List FileReport × Nat)
  | [], reports, total => .ok (reports, total)
  | path :: rest, reports, total =>
    let extension_name := splitextRoot (basename path)
    match fs path with
    | none => .error (.ioError path)
    | some lines =>
      let metadata := parse_s4ext lines
      match runChecks checks extension_name metadata [] with
      | .error a => .error a
      | .ok (failures, _) =>
        if failures.isEmpty then processFiles fs checks rest reports total
        else processFiles fs checks rest (reports ++ [⟨extension_name, failures⟩])
          (total + failures.length)

/-- `main`: run the configured checks over the given description files and
return the per-file reports together with `total_failure_count` (the printed
error total and the process exit status). -/
def main (fs : Str → Option (List Str)) (check_git_repository_name_flag : Bool)
    (file_paths : List Str) : Except RunAbort (List FileReport × Nat) :=
  processFiles fs (checksFor check_git_repository_name_flag) file_paths [] 0

/-- The number of failure lines actually printed for one report:
`set(failures)` dedups by full failure text. -/
def emittedFailureCount (r : FileReport) : Nat :=
  r.failures.dedup.length

/-- Sum over the reported files of the number of distinct failure texts —
what the spec says the aggregate failure count equals. -/
def distinctFailureTotal (reports : List FileReport) : Nat :=
  (reports.map emittedFailureCount).sum

/-! ### Dictionary and parser lemmas -/

theorem dictFind_some_contains {md : Metadata} {k : Str} {v : Option Str}
    (h : dictFind md k = some v) : dictContains md k = true := by
  induction md with
  | nil => simp [dictFind] at h
  | cons p rest ih =>
    obtain ⟨k1, v1⟩ := p
    by_cases hk : k1 = k
    · simp [dictContains, hk]
    · simp only [dictFind, hk, if_false] at h
      simp [dictContains, hk, ih h]

theorem dictFind_dictSet_same (md : Metadata) (k : Str) (v : Option Str) :
    dictFind (dictSet md k v) k = some v := by
  induction md with
  | nil => simp [dictSet, dictFind]
  | cons p rest ih =>
    obtain ⟨k1, v1⟩ := p
    by_cases hk : k1 = k
    · simp [dictSet, hk, dictFind]
    · simp [dictSet, hk, dictFind, ih]

theorem dictFind_dictSet_other {k2 k : Str} (hne : k2 ≠ k) (md : Metadata) (v : Option Str) :
    dictFind (dictSet md k2 v) k = dictFind md k := by
  induction md with
  | nil => simp [dictSet, dictFind, hne]
  | cons p rest ih =>
    obtain ⟨k1, v1⟩ := p
    by_cases h1 : k1 = k2
    · subst h1
      simp [dictSet, dictFind, hne]
    · simp [dictSet, h1, dictFind, ih]

theorem parseFrom_append (md : Metadata) (xs ys : List Str) :
    parseFrom md (xs ++ ys) = parseFrom (parseFrom md xs) ys := by
  simp [parseFrom, List.foldl_append]

theorem parseFrom_cons_none {l : Str} (h : parseLine l = none) (md : Metadata)
    (ys : List Str) : parseFrom md (l :: ys) = parseFrom md ys := by
  simp [parseFrom, List.foldl_cons, h]

theorem parseFrom_cons_some {l : Str} {k : Str} {v : Option Str}
    (h : parseLine l = some (k, v)) (md : Metadata) (ys : List Str) :
    parseFrom md (l :: ys) = parseFrom (dictSet md k v) ys := by
  simp [parseFrom, List.foldl_cons, h]

theorem parseFrom_find_of_no_def {k : Str} :
    ∀ (lines : List Str) (md : Metadata),
    (∀ l ∈ lines, ∀ kv, parseLine l = some kv → kv.1 ≠ k) →
    dictFind (parseFrom md lines) k = dictFind md k := by
  intro lines
  induction lines with
  | nil => intro md _; rfl
  | cons l rest ih =>
    intro md h
    cases hpl : parseLine l with
    | none =>
      rw [parseFrom_cons_none hpl]
      exact ih md (fun x hx => h x (List.mem_cons_of_mem _ hx))
    | some kv =>
      have hne : kv.1 ≠ k := h l (List.mem_cons_self l rest) kv hpl
      rw [parseFrom_cons_some (by rw [hpl])]
      rw [ih _ (fun x hx => h x (List.mem_cons_of_mem _ hx))]
      exact dictFind_dictSet_other hne md kv.2

theorem splitFirstChar_cons_ne {sep c : Char} (hc : ¬(c = sep)) (cs : Str) :
    splitFirstChar sep (c :: cs) =
      (c :: (splitFirstChar sep cs).1, (splitFirstChar sep cs).2) := by
  simp [splitFirstChar, hc]

theorem splitFirstChar_eq_none {sep : Char} :
    ∀ {s a : Str}, splitFirstChar sep s = (a, none) → a = s ∧ sep ∉ s := by
  intro s
  induction s with
  | nil =>
    intro a h
    rw [show splitFirstChar sep ([] : Str) = (([] : Str), (none : Option Str)) from rfl] at h
    injection h with h1 _
    exact ⟨h1.symm, by simp⟩
  | cons c cs ih =>
    intro a h
    by_cases hc : c = sep
    · rw [show splitFirstChar sep (c :: cs) = ([], some cs) from by simp [splitFirstChar, hc]] at h
      injection h with _ h2
      simp at h2
    · rw [splitFirstChar_cons_ne hc] at h
      injection h with h1 h2
      subst h1
      have hsp : splitFirstChar sep cs = ((splitFirstChar sep cs).1, none) := by rw [← h2]
      obtain ⟨hA, hs⟩ := ih hsp
      refine ⟨by rw [hA], ?_⟩
      intro hmem
      rcases List.mem_cons.mp hmem with he | he
      · exact hc he.symm
      · exact hs he

theorem splitFirstChar_eq_some {sep : Char} :
    ∀ {s a b : Str}, splitFirstChar sep s = (a, some b) → s = a ++ sep :: b ∧ sep ∉ a := by
  intro s
  induction s with
  | nil =>
    intro a b h
    rw [show splitFirstChar sep ([] : Str) = (([] : Str), (none : Option Str)) from rfl] at h
    injection h with _ h2
    simp at h2
  | cons c cs ih =>
    intro a b h
    by_cases hc : c = sep
    · rw [show splitFirstChar sep (c :: cs) = ([], some cs) from by simp [splitFirstChar, hc]] at h
      injection h with h1 h2
      injection h2 with h2
      subst h1
      subst h2
      subst hc
      exact ⟨rfl, by simp⟩
    · rw [splitFirstChar_cons_ne hc] at h
      injection h with h1 h2
      subst h1
      have hsp : splitFirstChar sep cs = ((splitFirstChar sep cs).1, some b) := by rw [← h2]
      obtain ⟨hA, hs⟩ := ih hsp
      constructor
      · exact congrArg (fun t => c :: t) hA
      · intro hmem
        rcases List.mem_cons.mp hmem with he | he
        · exact hc he.symm
        · exact hs he

theorem splitFirstChar_of_not_mem {sep : Char} :
    ∀ {s : Str}, sep ∉ s → splitFirstChar sep s = (s, none) := by
  intro s
  induction s with
  | nil => intro _; rfl
  | cons c cs ih =>
    intro h
    have hc : ¬(c = sep) := fun he => h (he ▸ List.mem_cons_self c cs)
    have hcs : sep ∉ cs := fun he => h (List.mem_cons_of_mem c he)
    simp [splitFirstChar, hc, ih hcs]

/-! ### Substring helpers for the suggestion text -/

theorem isInfix_commaJoin {x : Str} : ∀ {l : List Str}, x ∈ l → List.IsInfix x (commaJoin l) := by
  intro l
  induction l with
  | nil => intro h; exact absurd h (List.not_mem_nil x)
  | cons y rest ih =>
    intro h
    cases rest with
    | nil =>
      rcases List.mem_singleton.mp h with rfl
      exact ⟨[], [], by simp [commaJoin]⟩
    | cons z tail =>
      rcases List.mem_cons.mp h with rfl | h2
      · exact ⟨[], str ", " ++ commaJoin (z :: tail), by simp [commaJoin, List.append_assoc]⟩
      · obtain ⟨s, t, heq⟩ := ih h2
        exact ⟨y ++ str ", " ++ s, t, by simp [commaJoin, ← heq, List.append_assoc]⟩

theorem isInfix_pyReprStrList {x : Str} {l : List Str} (h : x ∈ l) :
    List.IsInfix x (pyReprStrList l) := by
  obtain ⟨s, t, heq⟩ := isInfix_commaJoin (List.mem_map_of_mem pyReprStr h)
  refine ⟨'[' :: s ++ [q], q :: t ++ [']'], ?_⟩
  simp only [pyReprStrList, ← heq, pyReprStr]
  simp [List.append_assoc]

theorem isInfix_append_mid (x a b : Str) : List.IsInfix x (a ++ x ++ b) :=
  ⟨a, b, rfl⟩

theorem isInfix_extend {x m : Str} (a b : Str) (h : List.IsInfix x m) :
    List.IsInfix x (a ++ m ++ b) := by
  obtain ⟨s, t, heq⟩ := h
  exact ⟨a ++ s, t ++ b, by simp [← heq, List.append_assoc]⟩

/-! ### Runner and `main` lemmas -/

/-- The failure text a check contributes at a given metadata state: the
details of the `ExtensionCheckError` it raises, if any. -/
def failureOf (extension_name : Str) (md : Metadata) (c : Check) : Option Str :=
  match (c extension_name md).1 with
  | .error (.checkError e) => some e.details
  | _ => none

theorem runChecks_ok_of_tame :
    ∀ (checks : List Check) (ext : Str) (md : Metadata) (acc : List Str),
    (∀ c ∈ checks, (c ext md).2 = md ∧ (c ext md).1 ≠ .error .uncaughtError) →
    runChecks checks ext md acc = .ok (acc ++ checks.filterMap (failureOf ext md), md) := by
  intro checks
  induction checks with
  | nil => intro ext md acc _; simp [runChecks]
  | cons c cs ih =>
    intro ext md acc h
    obtain ⟨hpres, hnu⟩ := h c (List.mem_cons_self c cs)
    have htail : ∀ x ∈ cs, (x ext md).2 = md ∧ (x ext md).1 ≠ .error .uncaughtError :=
      fun x hx => h x (List.mem_cons_of_mem _ hx)
    cases hr : (c ext md).1 with
    | ok u =>
      have hcv : c ext md = (.ok u, md) := by
        have hp : ((c ext md).1, (c ext md).2) = ((Except.ok u : Except PyErr Unit), md) := by
          rw [hr, hpres]
        simpa using hp
      rw [show runChecks (c :: cs) ext md acc = runChecks cs ext md acc from by
        simp only [runChecks, hcv]]
      rw [ih ext md acc htail]
      simp [List.filterMap_cons, failureOf, hr]
    | error e =>
      cases e with
      | checkError err =>
        have hcv : c ext md = (.error (.checkError err), md) := by
          have hp : ((c ext md).1, (c ext md).2) =
              ((Except.error (PyErr.checkError err) : Except PyErr Unit), md) := by
            rw [hr, hpres]
          simpa using hp
        rw [show runChecks (c :: cs) ext md acc = runChecks cs ext md (acc ++ [err.details]) from by
          simp only [runChecks, hcv]]
        rw [ih ext md (acc ++ [err.details]) htail]
        simp [List.filterMap_cons, failureOf, hr, List.append_assoc]
      | uncaughtError => exact absurd hr hnu

theorem processFiles_append (fs : Str → Option (List Str)) (checks : List Check) :
    ∀ (xs ys : List Str) (reports : List FileReport) (total : Nat),
    processFiles fs checks (xs ++ ys) reports total =
      match processFiles fs checks xs reports total with
      | .ok (r, t) => processFiles fs checks ys r t
      | .error e => .error e := by
  intro xs
  induction xs with
  | nil => intro ys reports total; rfl
  | cons p rest ih =>
    intro ys reports total
    cases hfs : fs p with
    | none => simp only [List.cons_append, processFiles, hfs]
    | some lines =>
      simp only [List.cons_append, processFiles, hfs]
      cases hrc : runChecks checks (splitextRoot (basename p)) (parse_s4ext lines) [] with
      | error a => rfl
      | ok pr =>
        obtain ⟨failures, mdEnd⟩ := pr
        by_cases hemp : failures.isEmpty
        · simp only [hemp, if_true]
          exact ih ys reports total
        · simp only [hemp, if_false]
          exact ih ys (reports ++ [⟨splitextRoot (basename p), failures⟩]) (total + failures.length)

theorem processFiles_ok_sum (fs : Str → Option (List Str)) (checks : List Check) :
    ∀ (paths : List Str) (reports : List FileReport) (total : Nat)
      (endReports : List FileReport) (endTotal : Nat),
    processFiles fs checks paths reports total = .ok (endReports, endTotal) →
    ∃ fresh, endReports = reports ++ fresh ∧
      endTotal = total + (fresh.map (fun r => r.failures.length)).sum ∧
      ∀ r ∈ fresh, r.failures ≠ [] := by
  intro paths
  induction paths with
  | nil =>
    intro reports total endReports endTotal h
    rw [show processFiles fs checks [] reports total = .ok (reports, total) from rfl] at h
    injection h with h1
    injection h1 with h1 h2
    exact ⟨[], by simp [← h1], by simp [← h2], by simp⟩
  | cons p rest ih =>
    intro reports total endReports endTotal h
    simp only [processFiles] at h
    split at h
    · exact absurd h (by simp)
    · split at h
      · exact absurd h (by simp)
      · split at h
        · exact ih reports total endReports endTotal h
        · rename_i failures mdEnd hrc hemp
          obtain ⟨fresh, h1, h2, h3⟩ :=
            ih (reports ++ [⟨splitextRoot (basename p), failures⟩]) (total + failures.length)
              endReports endTotal h
          refine ⟨⟨splitextRoot (basename p), failures⟩ :: fresh, ?_, ?_, ?_⟩
          · rw [h1]; simp
          · rw [h2]; simp [Nat.add_assoc]
          · intro r hr
            rcases List.mem_cons.mp hr with rfl | hr2
            · simpa [List.isEmpty_iff] using hemp
            · exact h3 r hr2

/-! ### Claim theorems -/

/-- A one-file batch for the aggregate-count claims: the file exists and is
empty, so all three enabled checks fail their guards, two of them with the
identical text `scmurl key is missing`. -/
def fsC1 : Str → Option (List Str) := fun p =>
  if p = str "Ext.s4ext" then some [] else none

/-- C1 (counterexample): with the `git-repository-name` check enabled on one
empty description file, three failures accumulate of which only two are
distinct texts; `main` reports a total failure count of 3, not the
spec-claimed sum of distinct failure texts, which is 2. -/
theorem claim_C1_counterexample :
    main fsC1 true [str "Ext.s4ext"] =
      .ok ([⟨str "Ext", [str "scmurl key is missing", str "scmurl key is missing",
        str "scm key is missing"]⟩], 3) ∧
    distinctFailureTotal [⟨str "Ext", [str "scmurl key is missing",
      str "scmurl key is missing", str "scm key is missing"]⟩] = 2 ∧
    (3 : Nat) ≠ 2 := by
  refine ⟨by decide, by decide, by decide⟩

/-- C1 (amended): the total failure count reported by `main` equals the sum
over the reported files of the raw number of failure records (an identical
failure text raised by two checks is counted twice; deduplication by full
failure text applies only to the emitted detail lines), and a file with no
failures contributes nothing: it appears in no report. -/
theorem claim_C1_amended (fs : Str → Option (List Str)) (flag : Bool)
    (paths : List Str) (reports : List FileReport) (total : Nat)
    (h : main fs flag paths = .ok (reports, total)) :
    total = (reports.map (fun r => r.failures.length)).sum ∧
    ∀ r ∈ reports, r.failures ≠ [] := by
  obtain ⟨fresh, h1, h2, h3⟩ :=
    processFiles_ok_sum fs (checksFor flag) paths [] 0 reports total h
  have hfr : fresh = reports := by rw [h1]; rfl
  subst hfr
  exact ⟨by simpa using h2, h3⟩

/-- Witness for the amended C1 at the concrete one-file batch. -/
theorem claim_C1_amended_witness :
    (3 : Nat) = (([⟨str "Ext", [str "scmurl key is missing", str "scmurl key is missing",
        str "scm key is missing"]⟩] : List FileReport).map (fun r => r.failures.length)).sum ∧
    ∀ r ∈ ([⟨str "Ext", [str "scmurl key is missing", str "scmurl key is missing",
        str "scm key is missing"]⟩] : List FileReport), r.failures ≠ [] :=
  claim_C1_amended fsC1 true [str "Ext.s4ext"] _ 3 (by decide)

/-- C2: a processed line containing no space character yields a `None` value
for its key, and when that line is the last one defining the key, the parsed
mapping binds the key to `None` — never to an empty string. -/
theorem claim_C2 (pre post : List Str) (line k : Str) (v : Option Str)
    (hline : parseLine line = some (k, v)) (hnosp : ' ' ∉ line)
    (hpost : ∀ l ∈ post, ∀ kv, parseLine l = some kv → kv.1 ≠ k) :
    v = none ∧ dictFind (parse_s4ext (pre ++ line :: post)) k = some none ∧
    dictFind (parse_s4ext (pre ++ line :: post)) k ≠ some (some (str "")) := by
  have hkv : k = pyStrip line ∧ v = none := by
    have hsp := splitFirstChar_of_not_mem hnosp
    have h2 := hline
    unfold parseLine at h2
    rw [hsp] at h2
    split at h2
    · exact absurd h2 (by simp)
    · injection h2 with h1
      injection h1 with hk hv
      exact ⟨hk.symm, hv.symm⟩
  obtain ⟨hk, hv⟩ := hkv
  subst hv
  refine ⟨rfl, ?_, ?_⟩
  · rw [show parse_s4ext (pre ++ line :: post) =
        parseFrom (parseFrom [] pre) (line :: post) from parseFrom_append [] pre (line :: post)]
    rw [parseFrom_cons_some hline]
    rw [parseFrom_find_of_no_def post _ hpost]
    exact dictFind_dictSet_same _ k none
  · rw [show parse_s4ext (pre ++ line :: post) =
        parseFrom (parseFrom [] pre) (line :: post) from parseFrom_append [] pre (line :: post)]
    rw [parseFrom_cons_some hline]
    rw [parseFrom_find_of_no_def post _ hpost]
    rw [dictFind_dictSet_same _ k none]
    simp

/-- Witness for C2: a bare `key` line (with its newline) in a file with a
comment line before it. -/
theorem claim_C2_witness :
    (none : Option Str) = none ∧
    dictFind (parse_s4ext ([str "# header"] ++ (str "key\n") :: [])) (str "key") = some none ∧
    dictFind (parse_s4ext ([str "# header"] ++ (str "key\n") :: [])) (str "key") ≠
      some (some (str "")) :=
  claim_C2 [str "# header"] [] (str "key\n") (str "key") none (by decide) (by decide)
    (by intro l hl; simp at hl)

/-- C3: when the required key is absent, `require_metadata_key` fails with the
missing-key `ExtensionCheckError` naming the key (and the guard's implicit
check name), and the wrapped function never runs — the outcome is the same
for every wrapped function, so a failing outer guard of a stacked pair
short-circuits and only one failure is raised; when the key is present the
guard delegates to the wrapped function. -/
theorem claim_C3 (key : Str) (f : Check) (ext : Str) (md : Metadata) :
    (dictContains md key = false →
      require_metadata_key key f ext md =
        (.error (.checkError ⟨ext, str "require_metadata_key",
          key ++ str " key is missing"⟩), md) ∧
      ∀ g : Check, require_metadata_key key g ext md = require_metadata_key key f ext md) ∧
    (dictContains md key = true → require_metadata_key key f ext md = f ext md) := by
  constructor
  · intro h
    constructor
    · simp [require_metadata_key, h]
    · intro g; simp [require_metadata_key, h]
  · intro h
    simp [require_metadata_key, h]

/-- Witness for C3: the missing-key failure of the `scm` guard on an empty
metadata dict, for the inner body of `check_scm_notlocal`. -/
theorem claim_C3_witness :
    require_metadata_key (str "scm") check_scm_notlocal_body (str "E") [] =
      (.error (.checkError ⟨str "E", str "require_metadata_key",
        str "scm" ++ str " key is missing"⟩), []) ∧
    require_metadata_key (str "scm") check_scm_notlocal_body (str "E")
        [(str "scm", some (str "git"))] =
      check_scm_notlocal_body (str "E") [(str "scm", some (str "git"))] :=
  ⟨((claim_C3 (str "scm") check_scm_notlocal_body (str "E") []).1 (by decide)).1,
   (claim_C3 (str "scm") check_scm_notlocal_body (str "E")
     [(str "scm", some (str "git"))]).2 (by decide)⟩

/-- The suggestion text of `check_git_repository_name` contains the
`Slicer`-prefixed name and every one of the four prefix variations. -/
theorem gitRepoNameDetail_contains (n : Str) :
    List.IsInfix (str "Slicer" ++ n) (gitRepoNameDetail n) ∧
    ∀ w ∈ variations n, List.IsInfix w (gitRepoNameDetail n) := by
  constructor
  · refine ⟨str "\nextension repository name is " ++ pyReprStr n ++
      str ". Please, consider changing it to " ++ [q],
      [q] ++ (str " or any of\nthese variations " ++ pyReprStrList (variations n) ++
        str ".\n"), ?_⟩
    simp [gitRepoNameDetail, List.append_assoc]
  · intro w hw
    obtain ⟨s, t, heq⟩ := isInfix_pyReprStrList hw
    refine ⟨str "\nextension repository name is " ++ pyReprStr n ++
      str ". Please, consider changing it to " ++ (q :: (str "Slicer" ++ n) ++ [q]) ++
      str " or any of\nthese variations " ++ s, t ++ str ".\n", ?_⟩
    simp only [gitRepoNameDetail, ← heq]
    simp [List.append_assoc]

/-- C4: with `scm` and `scmurl` present (and the URL free of the square
brackets that would make `urlsplit` raise), `check_git_repository_name`
fails exactly when `scm` is `git` and the repository name — last `/` segment
of the URL path, extension stripped — does not start with `Slicer`; the
failure detail is the suggestion text, which contains `Slicer<name>` and the
four variations `Slicer-`, `Slicer_`, `SlicerExtension-`, `SlicerExtension_`
each concatenated with the repository name; a present non-`git` scm returns
cleanly. -/
theorem claim_C4 (ext : Str) (md : Metadata) (s : Option Str) (u : Str)
    (hscm : dictFind md (str "scm") = some s)
    (hurl : dictFind md (str "scmurl") = some (some u))
    (_hbr : '[' ∉ u ∧ ']' ∉ u) :
    ((∃ e, check_git_repository_name ext md = (.error (.checkError e), md)) ↔
      s = some (str "git") ∧ List.isPrefixOf (str "Slicer") (repoName u) = false) ∧
    (s = some (str "git") → List.isPrefixOf (str "Slicer") (repoName u) = false →
      check_git_repository_name ext md =
        (.error (.checkError ⟨ext, str "check_git_repository_name",
          gitRepoNameDetail (repoName u)⟩), md) ∧
      List.IsInfix (str "Slicer" ++ repoName u) (gitRepoNameDetail (repoName u)) ∧
      ∀ w ∈ variations (repoName u), List.IsInfix w (gitRepoNameDetail (repoName u))) ∧
    variations (repoName u) = [str "Slicer-" ++ repoName u, str "Slicer_" ++ repoName u,
      str "SlicerExtension-" ++ repoName u, str "SlicerExtension_" ++ repoName u] ∧
    (s ≠ some (str "git") → check_git_repository_name ext md = (.ok (), md)) := by
  have hcs := dictFind_some_contains hscm
  have hcu := dictFind_some_contains hurl
  have hbody : check_git_repository_name ext md = check_git_repository_name_body ext md := by
    simp [check_git_repository_name, require_metadata_key, hcs, hcu]
  have hvar : variations (repoName u) = [str "Slicer-" ++ repoName u,
      str "Slicer_" ++ repoName u, str "SlicerExtension-" ++ repoName u,
      str "SlicerExtension_" ++ repoName u] := by
    simp [variations]
  by_cases hgit : s = some (str "git")
  · subst hgit
    by_cases hpre : List.isPrefixOf (str "Slicer") (repoName u) = true
    · have hres : check_git_repository_name ext md = (.ok (), md) := by
        rw [hbody]
        simp [check_git_repository_name_body, hscm, hurl, hpre]
      refine ⟨?_, ?_, hvar, fun hne => absurd rfl hne⟩
      · constructor
        · rintro ⟨e, he⟩
          rw [hres] at he
          simp at he
        · rintro ⟨_, h2⟩
          rw [h2] at hpre
          simp at hpre
      · intro _ h2
        rw [h2] at hpre
        simp at hpre
    · have hpf : List.isPrefixOf (str "Slicer") (repoName u) = false :=
        Bool.eq_false_iff.mpr hpre
      have hres : check_git_repository_name ext md =
          (.error (.checkError ⟨ext, str "check_git_repository_name",
            gitRepoNameDetail (repoName u)⟩), md) := by
        rw [hbody]
        simp [check_git_repository_name_body, hscm, hurl, hpf]
      refine ⟨?_, ?_, hvar, fun hne => absurd rfl hne⟩
      · exact ⟨fun _ => ⟨rfl, hpf⟩, fun _ => ⟨_, hres⟩⟩
      · intro _ _
        exact ⟨hres, (gitRepoNameDetail_contains (repoName u)).1,
          (gitRepoNameDetail_contains (repoName u)).2⟩
  · have hres : check_git_repository_name ext md = (.ok (), md) := by
      rw [hbody]
      simp [check_git_repository_name_body, hscm, hgit]
    refine ⟨?_, fun h1 _ => absurd h1 hgit, hvar, fun _ => hres⟩
    constructor
    · rintro ⟨e, he⟩
      rw [hres] at he
      simp at he
    · rintro ⟨h1, _⟩
      exact absurd h1 hgit

/-- Metadata for the C4 witness: a git repository whose name lacks the prefix. -/
def mdC4 : Metadata :=
  [(str "scm", some (str "git")), (str "scmurl", some (str "git://host/path/FooExtension.git"))]

/-- Metadata for the C4 witness: `scm` present but not `git`. -/
def mdC4svn : Metadata :=
  [(str "scm", some (str "svn")), (str "scmurl", some (str "svn://host/path/FooExtension"))]

/-- Witness for C4: the failing git case and the cleanly-skipping svn case. -/
theorem claim_C4_witness :
    (check_git_repository_name (str "Foo") mdC4 =
      (.error (.checkError ⟨str "Foo", str "check_git_repository_name",
        gitRepoNameDetail (repoName (str "git://host/path/FooExtension.git"))⟩), mdC4) ∧
      List.IsInfix (str "Slicer" ++ repoName (str "git://host/path/FooExtension.git"))
        (gitRepoNameDetail (repoName (str "git://host/path/FooExtension.git"))) ∧
      ∀ w ∈ variations (repoName (str "git://host/path/FooExtension.git")),
        List.IsInfix w (gitRepoNameDetail (repoName (str "git://host/path/FooExtension.git")))) ∧
    check_git_repository_name (str "Foo") mdC4svn = (.ok (), mdC4svn) :=
  ⟨(claim_C4 (str "Foo") mdC4 (some (str "git")) (str "git://host/path/FooExtension.git")
      (by decide) (by decide) (by decide)).2.1 rfl (by decide),
   (claim_C4 (str "Foo") mdC4svn (some (str "svn")) (str "svn://host/path/FooExtension")
      (by decide) (by decide) (by decide)).2.2.2 (by decide)⟩

/-- C5: with `scmurl` present as a (bracket-free) string value,
`check_scmurl_syntax` fails exactly when the value has no `"://"` substring
or its `urlsplit` scheme is not one of `git`, `https`, `svn`; otherwise it
returns cleanly. -/
theorem claim_C5 (ext : Str) (md : Metadata) (u : Str)
    (hurl : dictFind md (str "scmurl") = some (some u))
    (_hbr : '[' ∉ u ∧ ']' ∉ u) :
    ((∃ e, check_scmurl_syntax ext md = (.error (.checkError e), md)) ↔
      (isSubstring (str "://") u = false ∨
       supported_schemes.contains (urlsplit u).scheme = false)) ∧
    (isSubstring (str "://") u = true →
      supported_schemes.contains (urlsplit u).scheme = true →
      check_scmurl_syntax ext md = (.ok (), md)) := by
  have hcu := dictFind_some_contains hurl
  have hbody : check_scmurl_syntax ext md = check_scmurl_syntax_body ext md := by
    simp [ check_scmurl_syntax, require_metadata_key, hcu]
  by_cases hsub : isSubstring (str "://") u = true
  · by_cases hsch : supported_schemes.contains (urlsplit u).scheme = true
    · have hmem : (urlsplit u).scheme ∈ supported_schemes := by simpa using hsch
      have hres : check_scmurl_syntax ext md = (.ok (), md) := by
        rw [hbody]
        simp [ check_scmurl_syntax_body, hurl, hsub, hmem]
      refine ⟨?_, fun _ _ => hres⟩
      constructor
      · rintro ⟨e, he⟩
        rw [hres] at he
        simp at he
      · rintro (h | h)
        · rw [h] at hsub; simp at hsub
        · rw [h] at hsch; simp at hsch
    · have hschf : supported_schemes.contains (urlsplit u).scheme = false :=
        Bool.eq_false_iff.mpr hsch
      have hnmem : (urlsplit u).scheme ∉ supported_schemes := by simpa using hschf
      have hres : check_scmurl_syntax ext md =
          (.error (.checkError ⟨ext, str "check_scmurl_syntax",
            str "scmurl scheme is " ++ pyReprStr (urlsplit u).scheme ++
            str " but it should by any of " ++ pyReprStrList supported_schemes⟩), md) := by
        rw [hbody]
        simp [ check_scmurl_syntax_body, hurl, hsub, hnmem]
      exact ⟨⟨fun _ => Or.inr hschf, fun _ => ⟨_, hres⟩⟩, fun _ h2 => absurd h2 hsch⟩
  · have hsubf : isSubstring (str "://") u = false := Bool.eq_false_iff.mpr hsub
    have hres : check_scmurl_syntax ext md =
        (.error (.checkError ⟨ext, str "check_scmurl_syntax",
          str "scmurl do not match scheme://host/path"⟩), md) := by
      rw [hbody]
      simp [ check_scmurl_syntax_body, hurl, hsubf]
    exact ⟨⟨fun _ => Or.inl hsubf, fun _ => ⟨_, hres⟩⟩, fun h1 _ => absurd h1 hsub⟩

/-- Metadata for the C5 witness: an unsupported `ftp` scheme. -/
def mdC5ftp : Metadata := [(str "scmurl", some (str "ftp://x/y"))]

/-- Metadata for the C5 witness: no `://` at all. -/
def mdC5nopath : Metadata := [(str "scmurl", some (str "nopath"))]

/-- Metadata for the C5 witness: a well-formed supported URL. -/
def mdC5ok : Metadata := [(str "scmurl", some (str "https://example.org/Repo"))]

/-- Witness for C5 at the three inputs the claim names. -/
theorem claim_C5_witness :
    (∃ e, check_scmurl_syntax (str "E") mdC5ftp = (.error (.checkError e), mdC5ftp)) ∧
    (∃ e, check_scmurl_syntax (str "E") mdC5nopath = (.error (.checkError e), mdC5nopath)) ∧
    check_scmurl_syntax (str "E") mdC5ok = (.ok (), mdC5ok) :=
  ⟨(claim_C5 (str "E") mdC5ftp (str "ftp://x/y") (by decide) (by decide)).1.mpr (by decide),
   (claim_C5 (str "E") mdC5nopath (str "nopath") (by decide) (by decide)).1.mpr (by decide),
   (claim_C5 (str "E") mdC5ok (str "https://example.org/Repo") (by decide) (by decide)).2
     (by decide) (by decide)⟩

/-- The key/value pair a kept line contributes, read off `parseLine`. -/
theorem parseLine_eq (line k : Str) (v : Option Str) (h : parseLine line = some (k, v)) :
    k = pyStrip (splitFirstChar ' ' line).1 ∧ v = (splitFirstChar ' ' line).2.map pyStrip := by
  unfold parseLine at h
  split at h
  · exact absurd h (by simp)
  · injection h with h1
    injection h1 with hk hv
    exact ⟨hk.symm, hv.symm⟩

/-- C6: the parser skips lines that strip to empty or start with `#`; it
splits every kept line at its first space character into a stripped key and
an optional stripped value (absent when the line has no space); and a later
line for the same key overwrites the earlier binding. -/
theorem claim_C6 :
    (∀ (pre post : List Str) (line : Str),
      (pyStrip line = [] ∨ List.isPrefixOf (str "#") line = true) →
      parse_s4ext (pre ++ line :: post) = parse_s4ext (pre ++ post)) ∧
    (∀ (line k : Str) (v : Option Str), parseLine line = some (k, v) →
      (∃ a b, line = a ++ ' ' :: b ∧ ' ' ∉ a ∧ k = pyStrip a ∧ v = some (pyStrip b)) ∨
      (' ' ∉ line ∧ k = pyStrip line ∧ v = none)) ∧
    (∀ (pre mid post : List Str) (l1 l2 k : Str) (v1 v2 : Option Str),
      parseLine l1 = some (k, v1) → parseLine l2 = some (k, v2) →
      (∀ l ∈ post, ∀ kv, parseLine l = some kv → kv.1 ≠ k) →
      dictFind (parse_s4ext (pre ++ l1 :: mid ++ l2 :: post)) k = some v2) := by
  refine ⟨?_, ?_, ?_⟩
  · intro pre post line h
    have hnone : parseLine line = none := by
      unfold parseLine
      rcases h with h | h
      · simp [h]
      · simp [h]
    unfold parse_s4ext
    rw [parseFrom_append, parseFrom_append, parseFrom_cons_none hnone]
  · intro line k v hline
    obtain ⟨hk, hv⟩ := parseLine_eq line k v hline
    cases hsp : splitFirstChar ' ' line with
    | mk a b =>
      rw [hsp] at hk hv
      cases b with
      | none =>
        obtain ⟨ha, hmem⟩ := splitFirstChar_eq_none hsp
        right
        refine ⟨hmem, ?_, by simpa using hv⟩
        rw [hk, ha]
      | some b2 =>
        obtain ⟨hline_eq, hmem⟩ := splitFirstChar_eq_some hsp
        left
        exact ⟨a, b2, hline_eq, hmem, by simpa using hk, by simpa using hv⟩
  · intro pre mid post l1 l2 k v1 v2 _h1 h2 hpost
    rw [show pre ++ l1 :: mid ++ l2 :: post = (pre ++ l1 :: mid) ++ (l2 :: post) by simp]
    unfold parse_s4ext
    rw [parseFrom_append, parseFrom_cons_some h2, parseFrom_find_of_no_def post _ hpost]
    exact dictFind_dictSet_same _ k v2

/-- Witness for C6 at a two-line file where the second line overwrites the
first binding of `key`. -/
theorem claim_C6_witness :
    dictFind (parse_s4ext (([] : List Str) ++ (str "key a") :: ([] : List Str) ++
      (str "key b") :: ([] : List Str))) (str "key") = some (some (str "b")) :=
  claim_C6.2.2 [] [] [] (str "key a") (str "key b") (str "key")
    (some (str "a")) (some (str "b")) (by decide) (by decide) (by simp)

/-- C7: the runner invokes every check of the list in order on the same
metadata dict (none of them moves it, by hypothesis), converts each
check-level failure — missing-precondition or semantic — into a recorded
failure text, and returns all records: a failing check never suppresses the
execution or the recording of a later check. -/
theorem claim_C7 (checks : List Check) (ext : Str) (md : Metadata)
    (h : ∀ c ∈ checks, (c ext md).2 = md ∧ (c ext md).1 ≠ .error .uncaughtError) :
    runChecks checks ext md [] = .ok (checks.filterMap (failureOf ext md), md) := by
  have h0 := runChecks_ok_of_tame checks ext md [] h
  simpa using h0

/-- Metadata for the C7 witness: `scmurl` missing (first check fails its
guard) and `scm` equal to `local` (second check fails semantically). -/
def mdC7 : Metadata := [(str "scm", some (str "local"))]

/-- Witness for C7: both configured checks run and both failures are
recorded. -/
theorem claim_C7_witness :
    runChecks [ check_scmurl_syntax, check_scm_notlocal] (str "E") mdC7 [] =
      .ok ([ check_scmurl_syntax, check_scm_notlocal].filterMap (failureOf (str "E") mdC7),
        mdC7) := by
  refine claim_C7 [ check_scmurl_syntax, check_scm_notlocal] (str "E") mdC7 ?_
  intro c hc
  rcases List.mem_cons.mp hc with rfl | hc2
  · exact ⟨by decide, by decide⟩
  · rcases List.mem_cons.mp hc2 with rfl | hc3
    · exact ⟨by decide, by decide⟩
    · exact absurd hc3 (List.not_mem_nil c)

/-- C8: when a file cannot be read, the I/O error propagates out of
`parse_s4ext` uncaught: provided the earlier files processed normally, the
whole run ends in the I/O error (never a check-failure record), aborting
that file, and the outcome does not depend on the files listed after it —
no later file is validated. -/
theorem claim_C8 (fs : Str → Option (List Str)) (flag : Bool)
    (done : List Str) (bad : Str) (later laterOther : List Str)
    (reports : List FileReport) (total : Nat)
    (hok : main fs flag done = .ok (reports, total))
    (hbad : fs bad = none) :
    main fs flag (done ++ bad :: later) = .error (.ioError bad) ∧
    main fs flag (done ++ bad :: later) = main fs flag (done ++ bad :: laterOther) := by
  have key : ∀ xs : List Str, main fs flag (done ++ bad :: xs) = .error (.ioError bad) := by
    intro xs
    unfold main at hok ⊢
    rw [processFiles_append fs (checksFor flag) done (bad :: xs) [] 0, hok]
    simp [processFiles, hbad]
  exact ⟨key later, (key later).trans (key laterOther).symm⟩

/-- File system for the C8 witness: one healthy file, everything else
unreadable. -/
def fsC8 : Str → Option (List Str) := fun p =>
  if p = str "good.s4ext" then some [str "scm git", str "scmurl https://h/SlicerX"] else none

/-- Witness for C8: after the healthy file, the unreadable one aborts the
run, with and without a further file in the batch. -/
theorem claim_C8_witness :
    main fsC8 false ([str "good.s4ext"] ++ (str "bad.s4ext") :: []) =
      .error (.ioError (str "bad.s4ext")) ∧
    main fsC8 false ([str "good.s4ext"] ++ (str "bad.s4ext") :: []) =
      main fsC8 false ([str "good.s4ext"] ++ (str "bad.s4ext") :: [str "later.s4ext"]) :=
  claim_C8 fsC8 false [str "good.s4ext"] (str "bad.s4ext") [] [str "later.s4ext"] [] 0
    (by decide) (by decide)

/-- A guard returns the metadata unchanged whenever its wrapped function
does. -/
theorem require_metadata_key_snd (k : Str) (f : Check)
    (hf : ∀ e m, (f e m).2 = m) (ext : Str) (md : Metadata) :
    (require_metadata_key k f ext md).2 = md := by
  unfold require_metadata_key
  split
  · exact hf ext md
  · rfl

theorem check_scmurl_syntax_body_snd : ∀ (e : Str) (m : Metadata),
    ( check_scmurl_syntax_body e m).2 = m := by
  intro e m
  unfold check_scmurl_syntax_body
  cases dictFind m (str "scmurl") with
  | none => rfl
  | some v =>
    cases v with
    | none => rfl
    | some u =>
      by_cases h1 : isSubstring (str "://") u = true
      · by_cases h2 : supported_schemes.contains (urlsplit u).scheme = true
        · have hm : (urlsplit u).scheme ∈ supported_schemes := by simpa using h2
          simp [h1, hm]
        · have hnm : (urlsplit u).scheme ∉ supported_schemes := by
            simpa using Bool.eq_false_iff.mpr h2
          simp [h1, hnm]
      · have h1f : isSubstring (str "://") u = false := Bool.eq_false_iff.mpr h1
        simp [h1f]

theorem check_scm_notlocal_body_snd : ∀ (e : Str) (m : Metadata),
    (check_scm_notlocal_body e m).2 = m := by
  intro e m
  unfold check_scm_notlocal_body
  cases dictFind m (str "scm") with
  | none => rfl
  | some v =>
    by_cases h : v = some (str "local")
    · simp [h]
    · simp [h]

theorem check_git_repository_name_body_snd : ∀ (e : Str) (m : Metadata),
    (check_git_repository_name_body e m).2 = m := by
  intro e m
  unfold check_git_repository_name_body
  cases dictFind m (str "scm") with
  | none => rfl
  | some scm =>
    by_cases hg : scm = some (str "git")
    · cases dictFind m (str "scmurl") with
      | none => simp [hg]
      | some v =>
        cases v with
        | none => simp [hg]
        | some u =>
          by_cases hp : List.isPrefixOf (str "Slicer") (repoName u) = true
          · simp [hg, hp]
          · have hpf : List.isPrefixOf (str "Slicer") (repoName u) = false :=
              Bool.eq_false_iff.mpr hp
            simp [hg, hpf]
    · simp [hg]

/-- C9: no check mutates the metadata mapping — each of the three checks,
guards included, hands back exactly the dict it was given, whether it
passes or fails. -/
theorem claim_C9 (ext : Str) (md : Metadata) :
    ( check_scmurl_syntax ext md).2 = md ∧
    (check_scm_notlocal ext md).2 = md ∧
    (check_git_repository_name ext md).2 = md :=
  ⟨require_metadata_key_snd _ _ check_scmurl_syntax_body_snd ext md,
   require_metadata_key_snd _ _ check_scm_notlocal_body_snd ext md,
   require_metadata_key_snd _ _
     (fun e m => require_metadata_key_snd _ _ check_git_repository_name_body_snd e m) ext md⟩

/-- C10: with both `scm` and `scmurl` absent, `check_git_repository_name`
raises the missing-key failure for `scmurl` — the first-written, outermost
guard — and never the one for `scm`. -/
theorem claim_C10 (ext : Str) (md : Metadata)
    (_hscm : dictContains md (str "scm") = false)
    (hurl : dictContains md (str "scmurl") = false) :
    check_git_repository_name ext md =
      (.error (.checkError ⟨ext, str "require_metadata_key",
        str "scmurl" ++ str " key is missing"⟩), md) ∧
    check_git_repository_name ext md ≠
      (.error (.checkError ⟨ext, str "require_metadata_key",
        str "scm" ++ str " key is missing"⟩), md) := by
  have h1 : check_git_repository_name ext md =
      (.error (.checkError ⟨ext, str "require_metadata_key",
        str "scmurl" ++ str " key is missing"⟩), md) := by
    simp [check_git_repository_name, require_metadata_key, hurl]
  refine ⟨h1, ?_⟩
  rw [h1]
  intro heq
  injection heq with heq1 _
  injection heq1 with heq2
  injection heq2 with heq3
  injection heq3 with _ _ hdet
  exact absurd hdet (by decide)

/-- Witness for C10 at the empty metadata dict. -/
theorem claim_C10_witness :
    check_git_repository_name (str "E") [] =
      (.error (.checkError ⟨str "E", str "require_metadata_key",
        str "scmurl" ++ str " key is missing"⟩), []) ∧
    check_git_repository_name (str "E") [] ≠
      (.error (.checkError ⟨str "E", str "require_metadata_key",
        str "scm" ++ str " key is missing"⟩), []) :=
  claim_C10 (str "E") [] (by decide) (by decide)

end CheckDescriptionFiles
